/- Verification of the shimmer core against its source.

   Shallow embedding of:
   - src/crypto.ts            (sha256biguint64, minHash, sha256base64url, lshTags)
   - src/sketcher/sketcher.ts (parseIntervalSeconds, calculateEpoch)
   - src/sketcher/sketch.ts   (Sketch.isValid)
   - src/peers/peer.ts        (ProximityPeer.isClose)
   - src/protocols/psi/psi.ts (actAsClient, actAsServer, initiatePSI, handleIncomingPSI)

   Machine integers are modelled as Nat/Int with explicit wrap-arounds; JavaScript
   NaN behaviour (division / modulo by zero) is modelled explicitly where it is
   reachable.  Asynchronous code is modelled as a function from an environment
   (the outcome of every awaited operation) to the list of effects performed on
   the stream / peer-metadata store together with the final outcome. -/
import Mathlib

namespace Shimmer

/-! ## JavaScript number helpers

`calculateEpoch` can perform `x % 0`, which in JavaScript is `NaN`; `NaN`
propagates through subtraction and prints as `"NaN"`.  We model the numbers
reachable there as `Option Nat`, `none` being `NaN`. -/

/-- JavaScript `%` on the naturals appearing in `calculateEpoch`: modulo by zero is `NaN`. -/
def jsMod (a b : Nat) : Option Nat :=
  if b = 0 then none else some (a % b)

/-- JavaScript subtraction `a - r` for the uses in `calculateEpoch` (`r ≤ a` whenever
`r` is a number); `NaN` propagates. -/
def jsSub (a : Nat) (r : Option Nat) : Option Nat :=
  r.map (fun x => a - x)

/-- JavaScript `Number.prototype.toString` on such a value: `NaN` prints as `"NaN"`. -/
def jsNumToString : Option Nat → String
  | none => "NaN"
  | some n => toString n

/-! ## Interval parsing (sketcher.ts)

`parseIntervalSeconds` (sketcher.ts:113-135) matches the interval string against
the regex `(\d+)(s|m|h|d)` anchored at both ends and multiplies the parsed
amount by the seconds-per-unit table.  `calculateEpoch` (sketcher.ts:142-169)
inlines an identical copy of the same regex and table. -/

/-- The `SECONDS_PER_UNIT` table of sketcher.ts; `none` for a character that is
not one of the four unit letters (the regex would not match it). -/
def secondsPerUnit : Char → Option Nat
  | 's' => some 1
  | 'm' => some 60
  | 'h' => some 3600
  | 'd' => some 86400
  | _ => none

/-- Decimal value of the matched digit group, as JavaScript `parseInt` computes it
on a string of digits (exact arithmetic; float precision loss on astronomically
long digit strings is not modelled). -/
def digitsToNat (l : List Char) : Nat :=
  l.foldl (fun a c => 10 * a + (c.toNat - 48)) 0

/-- Model of `parseIntervalSeconds` (sketcher.ts:113-135).  The regex
`(\d+)(s|m|h|d)` anchored at both ends matches exactly the strings consisting of
one or more digits followed by a single unit letter; on a match the result is
`parseInt(digits) * SECONDS_PER_UNIT[unit]`, otherwise a ConfigError is thrown. -/
def parseIntervalSeconds (interval : String) : Except String Nat :=
  match interval.data.getLast? with
  | none => .error "Invalid interval format"
  | some unit =>
    let digits := interval.data.dropLast
    if digits ≠ [] ∧ digits.all Char.isDigit then
      match secondsPerUnit unit with
      | some perUnit => .ok (digitsToNat digits * perUnit)
      | none => .error "Invalid interval format"
    else .error "Invalid interval format"

/-- The purely syntactic pattern of the interval regex: one or more digit
characters followed by one of the unit letters, and nothing else. -/
def matchesIntervalPattern (interval : String) : Prop :=
  ∃ ds unit, interval.data = ds ++ [unit] ∧ ds ≠ [] ∧ ds.all Char.isDigit = true ∧
    (unit = 's' ∨ unit = 'm' ∨ unit = 'h' ∨ unit = 'd')

/-- Model of `calculateEpoch` (sketcher.ts:142-169).  The source inlines the same
regex parsing as `parseIntervalSeconds`; on a match it computes
`aligned = now - now % intervalSeconds` with JavaScript number semantics
(`now % 0` is `NaN`, `now - NaN` is `NaN`, and `NaN` prints as `"NaN"`) and
returns the decimal string.  `nowSeconds` is `Math.floor(Date.now() / 1000)`,
passed as a parameter. -/
def calculateEpoch (interval : String) (nowSeconds : Nat) : Except String String :=
  (parseIntervalSeconds interval).map fun intervalSeconds =>
    jsNumToString (jsSub nowSeconds (jsMod nowSeconds intervalSeconds))

/-! ## Peer liveness (peers/peer.ts) -/

/-- The fields of a tracked `Sketch` that `isClose` reads. -/
structure TrackedSketch where
  id : String
  expiresAt : Int

/-- Model of `Sketch.isValid` (sketcher/sketch.ts:37-39): `Date.now() < expiresAt`. -/
def sketchIsValid (now : Int) (s : TrackedSketch) : Bool :=
  decide (now < s.expiresAt)

/-- Model of `ProximityPeer.isClose` (peers/peer.ts:32-46).  The loop returns
`true` at the first retained sketch that is valid or whose time since expiry is
below the grace period, `false` if no sketch qualifies. -/
def isClose (now : Int) (sketches : List TrackedSketch) (gracePeriodMs : Int) : Bool :=
  sketches.any fun s => sketchIsValid now s || decide (now - s.expiresAt < gracePeriodMs)

/-! ## SHA-256 (the digest used by crypto.ts via `crypto.subtle.digest("SHA-256", _)`)

FIPS 180-4 over byte lists, with 32-bit words as naturals reduced mod `2^32`. -/

/-- Reduction of a natural to a 32-bit word. -/
def w32 (n : Nat) : Nat := n % 4294967296

/-- Right rotation of a 32-bit word. -/
def rotr (n x : Nat) : Nat := x % 2 ^ n * 2 ^ (32 - n) + x / 2 ^ n

/-- Bitwise complement on a 32-bit word. -/
def notw (x : Nat) : Nat := 4294967295 - x

/-- SHA-256 big sigma 0. -/
def bsig0 (x : Nat) : Nat := rotr 2 x ^^^ rotr 13 x ^^^ rotr 22 x

/-- SHA-256 big sigma 1. -/
def bsig1 (x : Nat) : Nat := rotr 6 x ^^^ rotr 11 x ^^^ rotr 25 x

/-- SHA-256 small sigma 0. -/
def ssig0 (x : Nat) : Nat := rotr 7 x ^^^ rotr 18 x ^^^ (x >>> 3)

/-- SHA-256 small sigma 1. -/
def ssig1 (x : Nat) : Nat := rotr 17 x ^^^ rotr 19 x ^^^ (x >>> 10)

/-- SHA-256 round constants (FIPS 180-4: the fractional parts of the cube
roots of the first 64 primes, written in decimal). -/
def shaK : List Nat :=
  [1116352408, 1899447441, 3049323471, 3921009573, 961987163, 1508970993, 2453635748, 2870763221,
   3624381080, 310598401, 607225278, 1426881987, 1925078388, 2162078206, 2614888103, 3248222580,
   3835390401, 4022224774, 264347078, 604807628, 770255983, 1249150122, 1555081692, 1996064986,
   2554220882, 2821834349, 2952996808, 3210313671, 3336571891, 3584528711, 113926993, 338241895,
   666307205, 773529912, 1294757372, 1396182291, 1695183700, 1986661051, 2177026350, 2456956037,
   2730485921, 2820302411, 3259730800, 3345764771, 3516065817, 3600352804, 4094571909, 275423344,
   430227734, 506948616, 659060556, 883997877, 958139571, 1322822218, 1537002063, 1747873779,
   1955562222, 2024104815, 2227730452, 2361852424, 2428436474, 2756734187, 3204031479, 3329325298]

/-- SHA-256 initial hash value (FIPS 180-4: the fractional parts of the square
roots of the first 8 primes, written in decimal). -/
def shaH0 : List Nat :=
  [1779033703, 3144134277, 1013904242, 2773480762, 1359893119, 2600822924, 528734635, 1541459225]

/-- Big-endian byte expansion of a natural into `numBytes` bytes. -/
def toBytesBE (numBytes n : Nat) : List Nat :=
  (List.range numBytes).map fun i => n / 2 ^ (8 * (numBytes - 1 - i)) % 256

/-- Big-endian value of a byte list (also decodes a 4-byte group into a word). -/
def beNat (bytes : List Nat) : Nat :=
  bytes.foldl (fun a b => 256 * a + b) 0

/-- Splitting a list into chunks of `n` elements (`n > 0` in every use). -/
def chunkList {α : Type} (n : Nat) (l : List α) : List (List α) :=
  if _hn : n = 0 then []
  else
    match l with
    | [] => []
    | x :: xs => (x :: xs).take n :: chunkList n ((x :: xs).drop n)
termination_by l.length
decreasing_by
  rw [List.length_drop]
  simp only [List.length_cons]
  omega

/-- The 16 big-endian words of a 64-byte block. -/
def bytesToWords (blockBytes : List Nat) : List Nat :=
  (chunkList 4 blockBytes).map beNat

/-- SHA-256 message-schedule extension of a 16-word block to 64 words. -/
def schedule (blockWords : List Nat) : List Nat :=
  ((List.range 48).foldl
    (fun acc t =>
      let i := t + 16
      acc.push (w32 (ssig1 (acc.getD (i - 2) 0) + acc.getD (i - 7) 0 +
        ssig0 (acc.getD (i - 15) 0) + acc.getD (i - 16) 0)))
    blockWords.toArray).toList

/-- One SHA-256 compression round on the eight-word state. -/
def compressStep (st : List Nat) (k w : Nat) : List Nat :=
  let a := st.getD 0 0
  let b := st.getD 1 0
  let c := st.getD 2 0
  let d := st.getD 3 0
  let e := st.getD 4 0
  let f := st.getD 5 0
  let g := st.getD 6 0
  let h := st.getD 7 0
  let t1 := w32 (h + bsig1 e + ((e &&& f) ^^^ (notw e &&& g)) + k + w)
  let t2 := w32 (bsig0 a + ((a &&& b) ^^^ (a &&& c) ^^^ (b &&& c)))
  [w32 (t1 + t2), a, b, c, w32 (d + t1), e, f, g]

/-- SHA-256 compression of one 64-byte block into the running hash. -/
def compressChunk (h : List Nat) (blockBytes : List Nat) : List Nat :=
  let ws := schedule (bytesToWords blockBytes)
  let st := (shaK.zip ws).foldl (fun st kw => compressStep st kw.1 kw.2) h
  (h.zip st).map fun p => w32 (p.1 + p.2)

/-- SHA-256 padding: `0x80`, zeros to 56 mod 64, then the bit length on 8 bytes. -/
def padMessage (msg : List Nat) : List Nat :=
  msg ++ [128] ++ List.replicate ((119 - msg.length % 64) % 64) 0 ++ toBytesBE 8 (8 * msg.length)

/-- SHA-256 digest (32 bytes) of a byte list. -/
def sha256 (msg : List Nat) : List Nat :=
  ((chunkList 64 (padMessage msg)).foldl compressChunk shaH0).flatMap (toBytesBE 4)

/-! ## Text encodings used by crypto.ts -/

/-- UTF-8 encoding of one character (what `TextEncoder.encode` produces per code point). -/
def utf8Char (c : Char) : List Nat :=
  let n := c.toNat
  if n < 128 then [n]
  else if n < 2048 then [192 + n / 64, 128 + n % 64]
  else if n < 65536 then [224 + n / 4096, 128 + n / 64 % 64, 128 + n % 64]
  else [240 + n / 262144, 128 + n / 4096 % 64, 128 + n / 64 % 64, 128 + n % 64]

/-- UTF-8 encoding of a string (`new TextEncoder().encode(s)`). -/
def utf8Encode (s : String) : List Nat :=
  s.data.flatMap utf8Char

/-- The standard base64 alphabet used by `btoa`. -/
def base64Char (n : Nat) : Char :=
  "ABCDEFGHIJKLMNOPQRSTUVWXYZabcdefghijklmnopqrstuvwxyz0123456789+/".data.getD n 'A'

/-- Base64 encoding (with `=` padding) of a byte list, as `btoa` produces it. -/
def base64Quads : List Nat → List Char
  | [] => []
  | [b1] => [base64Char (b1 / 4), base64Char (b1 % 4 * 16), '=', '=']
  | [b1, b2] => [base64Char (b1 / 4), base64Char (b1 % 4 * 16 + b2 / 16), base64Char (b2 % 16 * 4), '=']
  | b1 :: b2 :: b3 :: rest =>
    base64Char (b1 / 4) :: base64Char (b1 % 4 * 16 + b2 / 16) ::
      base64Char (b2 % 16 * 4 + b3 / 64) :: base64Char (b3 % 64) :: base64Quads rest

/-- The base64url post-processing of crypto.ts:55-59: `+` to `-`, `/` to `_`, `=` removed. -/
def base64urlOfBytes (bytes : List Nat) : String :=
  ⟨((base64Quads bytes).filter (fun c => c ≠ '=')).map
    (fun c => if c = '+' then '-' else if c = '/' then '_' else c)⟩

/-! ## crypto.ts -/

/-- The `args.join("|")` concatenation used by both hash helpers in crypto.ts. -/
def joinPipe (args : List String) : String :=
  ⟨List.intercalate ['|'] (args.map String.data)⟩

/-- Model of `sha256biguint64` (crypto.ts:11-20): join the arguments with `"|"`,
UTF-8 encode, digest with SHA-256, and read the first 8 digest bytes as a
big-endian unsigned 64-bit integer (`DataView.getBigUint64(0, false)`). -/
def sha256biguint64 (args : List String) : Nat :=
  beNat ((sha256 (utf8Encode (joinPipe args))).take 8)

/-- The initial slot value of `minHash` (crypto.ts:33): the literal
`0xffff_fffff_ffff_ffffn`, which has seventeen hex digits. -/
def minHashInit : Nat := 0xfffffffffffffffff

/-- Model of `minHash` (crypto.ts:28-42): each of the `k` slots starts at
`minHashInit`; for every item in order, slot `i` is replaced by
`sha256biguint64(item, salt, i.toString())` when that hash is smaller. -/
def minHash (items : List String) (k : Nat) (salt : String) : List Nat :=
  items.foldl
    (fun signature item =>
      signature.mapIdx fun i v =>
        let h := sha256biguint64 [item, salt, toString i]
        if h < v then h else v)
    (List.replicate k minHashInit)

/-- Model of `sha256base64url` (crypto.ts:49-61): join with `"|"`, digest, and
base64url-encode the full 32-byte digest without padding. -/
def sha256base64url (args : List String) : String :=
  base64urlOfBytes (sha256 (utf8Encode (joinPipe args)))

/-- The tag-set record of crypto.ts. -/
structure Tags where
  publicTags : List String
  preImages : List String
deriving DecidableEq

/-- Model of `lshTags` (crypto.ts:79-113).  The source computes
`rows = signature.length / bands` in floating point and throws when
`Number.isInteger(rows)` fails; that holds exactly when `bands` is nonzero and
divides the length (for `bands = 0` the quotient is `NaN` or `Infinity`, never
an integer).  Each band `i` takes the `i`-th contiguous `rows`-slice of the
signature as decimal strings, hashes `(salt, i, ...slice)` into the pre-image,
and double-hashes the pre-image into the public tag. -/
def lshTags (signature : List Nat) (bands : Nat) (salt : String) : Except String Tags :=
  let rows := signature.length / bands
  if bands ≠ 0 ∧ bands ∣ signature.length then
    .ok ((List.range bands).foldl
      (fun tags i =>
        let slice := ((signature.drop (i * rows)).take rows).map (fun b => toString b)
        let preImage := sha256base64url (salt :: toString i :: slice)
        let publicTag := sha256base64url [preImage]
        ⟨tags.publicTags ++ [publicTag], tags.preImages ++ [preImage]⟩)
      ⟨[], []⟩)
  else .error "signature.length must be divisible by bands"

/-! ## PSI handshake protocol (protocols/psi/psi.ts)

Each `await` is modelled by an environment field giving that operation's
outcome; a run of a handler is the list of effects it performs on the stream
and the shared peer-metadata store, together with its outcome.  The external
PSI primitive (`@openmined/psi.js`, wrapped by protocols/psi/helpers.ts) is a
black box whose reported intersection size is an environment field.  Effects
that an execution abandoned by the timeout race might still perform after the
race settles are not modelled, and neither are failures of the peer-store
`merge` calls themselves (`markOngoing` / `unmarkOngoing`). -/

/-- Errors thrown inside the PSI handshake. -/
inductive PSIErr
  | alreadyOngoing
  | openFailed
  | timeout
  | noSketch
  | emptyItems
  | transport (op : String)
deriving DecidableEq

/-- A JavaScript number as it arises from `(intersectionSize / ourItems.length)
* 100`: a finite value (kept in exact rational arithmetic; the source rounds it
to a float), `Infinity` (positive numerator divided by zero), or `NaN` (zero
divided by zero).  The numerator is a count cast from a natural, so negative
values and `-Infinity` are unreachable here. -/
inductive JSNumber
  | num (q : ℚ)
  | posInf
  | nan
deriving DecidableEq

/-- JavaScript float division on the nonnegative values reaching it in
`actAsClient`: division by zero yields `Infinity`, and `0 / 0` yields `NaN`. -/
def jsDiv (a b : ℚ) : JSNumber :=
  if b = 0 then (if a = 0 then JSNumber.nan else JSNumber.posInf) else JSNumber.num (a / b)

/-- JavaScript multiplication of such a value by a positive finite constant:
`NaN` and `Infinity` absorb. -/
def jsMul (x : JSNumber) (c : ℚ) : JSNumber :=
  match x with
  | JSNumber.num q => JSNumber.num (q * c)
  | JSNumber.posInf => JSNumber.posInf
  | JSNumber.nan => JSNumber.nan

/-- The value is a finite number lying between 0 and 100 (`NaN` and `Infinity`
are not; JavaScript comparisons with `NaN` are false). -/
def betweenZeroAndHundred : JSNumber → Prop
  | JSNumber.num q => 0 ≤ q ∧ q ≤ 100
  | JSNumber.posInf => False
  | JSNumber.nan => False

/-- The result record built by `actAsClient` (psi.ts:134-139). -/
structure PSIResult where
  similarity : JSNumber
  intersectionSize : Nat
  totalItems : Nat
  completedAt : Int
deriving DecidableEq

/-- Observable effects of a handshake run: operations on the stream and on the
shared peer-metadata store, plus the psi:complete event dispatch. -/
inductive Eff
  | markOngoing
  | unmarkOngoing
  | openStream
  | closeStream
  | abortStream (e : PSIErr)
  | writeFrame
  | readFrame
  | emitComplete (r : PSIResult)

/-- Outcomes of the awaited operations inside `actAsClient`:
`writeErr` for `lp.write`, `readErr` for `lp.read` / response parsing, and
`intersectionSize` for the value the external PSI primitive reports. -/
structure ClientEnv where
  writeErr : Option PSIErr
  readErr : Option PSIErr
  intersectionSize : Nat

/-- Outcomes of the awaited operations inside `actAsServer`: `readErr` for
`lp.read` / request parsing, `sketchItems` for `getCurrentSketch(modality)`
(`none` when there is no valid sketch), `writeErr` for `lp.write`;
`modality` is the modality named in the received request. -/
structure ServerEnv where
  readErr : Option PSIErr
  modality : String
  sketchItems : Option (List String)
  writeErr : Option PSIErr

/-- Model of `actAsClient` (psi.ts:88-148): send the request frame, read the
response frame, derive the intersection size and build the result.  Any error
is caught, the stream is aborted with it, and it is rethrown. -/
def actAsClient (env : ClientEnv) (items : List String) (now : Int) :
    List Eff × Except PSIErr PSIResult :=
  match env.writeErr with
  | some e => ([Eff.abortStream e], .error e)
  | none =>
    match env.readErr with
    | some e => ([Eff.writeFrame, Eff.abortStream e], .error e)
    | none =>
      let similarity := jsMul (jsDiv (env.intersectionSize : ℚ) (items.length : ℚ)) 100
      ([Eff.writeFrame, Eff.readFrame],
        .ok ⟨similarity, env.intersectionSize, items.length, now⟩)

/-- Model of `actAsServer` (psi.ts:150-204): read the request frame, look up the
current sketch for the requested modality (throwing `NoSketchError` when none),
run the PSI server primitive (helpers.ts `createSetup` throws on an empty item
list), and write the response frame.  Any error is caught, the stream is
aborted with it, and it is rethrown. -/
def actAsServer (env : ServerEnv) : List Eff × Except PSIErr String :=
  match env.readErr with
  | some e => ([Eff.abortStream e], .error e)
  | none =>
    match env.sketchItems with
    | none => ([Eff.readFrame, Eff.abortStream PSIErr.noSketch], .error PSIErr.noSketch)
    | some items =>
      if items = [] then
        ([Eff.readFrame, Eff.abortStream PSIErr.emptyItems], .error PSIErr.emptyItems)
      else
        match env.writeErr with
        | some e => ([Eff.readFrame, Eff.abortStream e], .error e)
        | none => ([Eff.readFrame, Eff.writeFrame], .ok env.modality)

/-- Environment of one `initiatePSI` run: the already-ongoing check, whether
`openStream` fails (or returns no stream), the two role environments, and the
timeout race (`some n` when the timeout fires after `n` effects of the
execution, `none` when the execution wins). -/
structure InitiateEnv where
  ongoing : Bool
  openErr : Bool
  client : ClientEnv
  server : ServerEnv
  timeoutAfter : Option Nat

/-- Environment of one `handleIncomingPSI` run.  `ourSketch` is the second
`getCurrentSketch(modality)` lookup done in the execution body after the server
round (psi.ts:245-248). -/
structure IncomingEnv where
  ongoing : Bool
  server : ServerEnv
  ourSketch : Option (List String)
  client : ClientEnv
  timeoutAfter : Option Nat

/-- Model of `Promise.race([psiExecution(), timeoutPromise])`: when the timeout
fires after `n` effects and the execution is not yet finished, the race rejects
with the timeout error and the rest of the execution is abandoned. -/
def race {α : Type} (exec : List Eff × Except PSIErr α) :
    Option Nat → List Eff × Except PSIErr α
  | none => exec
  | some n => if n < exec.1.length then (exec.1.take n, .error PSIErr.timeout) else exec

/-- The `psiExecution` body of `initiatePSI` (psi.ts:407-420): client role with
the sketch passed by the caller, then server role. -/
def initiateExec (env : InitiateEnv) (items : List String) (now : Int) :
    List Eff × Except PSIErr PSIResult :=
  let c := actAsClient env.client items now
  match c.2 with
  | .error e => (c.1, .error e)
  | .ok r =>
    let s := actAsServer env.server
    match s.2 with
    | .error e => (c.1 ++ s.1, .error e)
    | .ok _ => (c.1 ++ s.1, .ok r)

/-- The `psiExecution` body of `handleIncomingPSI` (psi.ts:240-259): server role,
then a second `getCurrentSketch` lookup (throwing when it returns nothing — this
throw happens outside the roles' try blocks, so no abort), then client role with
that sketch's items. -/
def incomingExec (env : IncomingEnv) (now : Int) :
    List Eff × Except PSIErr PSIResult :=
  let s := actAsServer env.server
  match s.2 with
  | .error e => (s.1, .error e)
  | .ok _ =>
    match env.ourSketch with
    | none => (s.1, .error PSIErr.noSketch)
    | some items =>
      let c := actAsClient env.client items now
      (s.1 ++ c.1, c.2)

/-- Model of `initiatePSI` (psi.ts:361-458).  When the already-ongoing check
fires, the throw skips `markOngoing` and `openStream`, but the `finally` block
still runs: the stream was never assigned (so no close), and `unmarkOngoing` is
called.  When `openStream` fails, the `finally` closes nothing and unmarks.
Otherwise the execution races the timeout; on success the psi:complete event is
dispatched before the `finally` closes the stream and unmarks; on error the
`finally` runs and the error propagates.  `waitForDirectConnection` never
throws and performs no modelled effect. -/
def initiatePSI (env : InitiateEnv) (items : List String) (now : Int) :
    List Eff × Except PSIErr PSIResult :=
  if env.ongoing then
    ([Eff.unmarkOngoing], .error PSIErr.alreadyOngoing)
  else if env.openErr then
    ([Eff.markOngoing, Eff.unmarkOngoing], .error PSIErr.openFailed)
  else
    let e := race (initiateExec env items now) env.timeoutAfter
    match e.2 with
    | .ok r =>
      ([Eff.markOngoing, Eff.openStream] ++ e.1 ++
        [Eff.emitComplete r, Eff.closeStream, Eff.unmarkOngoing], .ok r)
    | .error err =>
      ([Eff.markOngoing, Eff.openStream] ++ e.1 ++
        [Eff.closeStream, Eff.unmarkOngoing], .error err)

/-- Model of `handleIncomingPSI` (psi.ts:210-300).  When the already-ongoing
check fires, the handler closes the stream, throws, and the `finally` block
closes the stream a second time and calls `unmarkOngoing`.  Otherwise it marks
ongoing, races the execution against the timeout, dispatches psi:complete only
on success, and the `finally` closes the stream and unmarks. -/
def handleIncomingPSI (env : IncomingEnv) (now : Int) :
    List Eff × Except PSIErr PSIResult :=
  if env.ongoing then
    ([Eff.closeStream, Eff.closeStream, Eff.unmarkOngoing], .error PSIErr.alreadyOngoing)
  else
    let e := race (incomingExec env now) env.timeoutAfter
    match e.2 with
    | .ok r =>
      (Eff.markOngoing :: e.1 ++
        [Eff.emitComplete r, Eff.closeStream, Eff.unmarkOngoing], .ok r)
    | .error err =>
      (Eff.markOngoing :: e.1 ++ [Eff.closeStream, Eff.unmarkOngoing], .error err)

/-- Recognizer for `closeStream` effects. -/
def isCloseEff : Eff → Bool
  | Eff.closeStream => true
  | _ => false

/-- Recognizer for `openStream` effects. -/
def isOpenEff : Eff → Bool
  | Eff.openStream => true
  | _ => false

/-- Recognizer for psi:complete dispatches. -/
def isEmitEff : Eff → Bool
  | Eff.emitComplete _ => true
  | _ => false

/-- Recognizer for protocol-round effects (frames sent or received). -/
def isRoundEff : Eff → Bool
  | Eff.writeFrame => true
  | Eff.readFrame => true
  | _ => false

/-- Recognizer for `markOngoing` effects. -/
def isMarkEff : Eff → Bool
  | Eff.markOngoing => true
  | _ => false

/-- Recognizer for `unmarkOngoing` effects. -/
def isUnmarkEff : Eff → Bool
  | Eff.unmarkOngoing => true
  | _ => false

/-- Number of `closeStream` effects in a trace. -/
def countClose (t : List Eff) : Nat := t.countP isCloseEff

/-- Number of `openStream` effects in a trace. -/
def countOpen (t : List Eff) : Nat := t.countP isOpenEff

/-- Number of psi:complete dispatches in a trace. -/
def countEmit (t : List Eff) : Nat := t.countP isEmitEff

/-- Number of protocol-round effects in a trace. -/
def countRound (t : List Eff) : Nat := t.countP isRoundEff

/-- Number of `markOngoing` effects in a trace. -/
def countMark (t : List Eff) : Nat := t.countP isMarkEff

/-- Number of `unmarkOngoing` effects in a trace. -/
def countUnmark (t : List Eff) : Nat := t.countP isUnmarkEff

/-! ## Auxiliary definitions for the proofs -/

/-- Decimal digit expansion of a natural, most significant digit first
(auxiliary: the normal form of `Nat.toDigits 10`). -/
def natDigits (n : Nat) : List Char :=
  if n < 10 then [Nat.digitChar n]
  else natDigits (n / 10) ++ [Nat.digitChar (n % 10)]
termination_by n
decreasing_by
  have : 10 ≤ n := Nat.le_of_not_lt (by assumption)
  exact Nat.div_lt_self (by omega) (by omega)

/-! ## Theorems -/

theorem digitChar_toNat : ∀ d : Fin 10, (Nat.digitChar d.val).toNat = 48 + d.val := by
  decide

theorem toDigitsCore_eq_natDigits :
    ∀ fuel n ds, n ≤ fuel → Nat.toDigitsCore 10 (fuel + 1) n ds = natDigits n ++ ds := by
  intro fuel
  induction fuel with
  | zero =>
    intro n ds hn
    have hn0 : n = 0 := Nat.le_zero.mp hn
    subst hn0
    simp [Nat.toDigitsCore, natDigits]
  | succ fuel ih =>
    intro n ds hn
    by_cases h10 : n < 10
    · have hdiv : n / 10 = 0 := Nat.div_eq_of_lt h10
      have hmod : n % 10 = n := Nat.mod_eq_of_lt h10
      simp [Nat.toDigitsCore, hdiv, hmod, natDigits, h10]
    · have hdiv0 : n / 10 ≠ 0 := by omega
      have hle : n / 10 ≤ fuel := by omega
      have step : Nat.toDigitsCore 10 (fuel + 2) n ds
          = Nat.toDigitsCore 10 (fuel + 1) (n / 10) (Nat.digitChar (n % 10) :: ds) := by
        simp [Nat.toDigitsCore, hdiv0]
      rw [step, ih (n / 10) (Nat.digitChar (n % 10) :: ds) hle]
      rw [show natDigits n = natDigits (n / 10) ++ [Nat.digitChar (n % 10)] by
        rw [natDigits]; simp [h10]]
      simp

theorem toDigits_eq_natDigits (n : Nat) : Nat.toDigits 10 n = natDigits n := by
  have := toDigitsCore_eq_natDigits n n [] (Nat.le_refl n)
  simpa [Nat.toDigits] using this

theorem digitsToNat_natDigits : ∀ n, digitsToNat (natDigits n) = n := by
  intro n
  induction n using Nat.strong_induction_on with
  | _ n ih =>
    by_cases h10 : n < 10
    · rw [natDigits]
      simp only [h10, if_true]
      have := digitChar_toNat ⟨n, h10⟩
      simp [digitsToNat, this]
    · rw [natDigits]
      simp only [h10, if_false]
      have hdiv : n / 10 < n := Nat.div_lt_self (by omega) (by omega)
      have ihd := ih (n / 10) hdiv
      have hm : n % 10 < 10 := Nat.mod_lt _ (by omega)
      have hdc := digitChar_toNat ⟨n % 10, hm⟩
      simp only [digitsToNat] at ihd ⊢
      rw [List.foldl_append]
      simp only [List.foldl_cons, List.foldl_nil, ihd, hdc]
      omega

theorem natRepr_injective : Function.Injective Nat.repr := by
  intro m n h
  have hm : (Nat.toDigits 10 m).asString = (Nat.toDigits 10 n).asString := h
  have hdata : Nat.toDigits 10 m = Nat.toDigits 10 n := by
    have := congrArg String.data hm
    simpa [List.asString] using this
  rw [toDigits_eq_natDigits, toDigits_eq_natDigits] at hdata
  have := congrArg digitsToNat hdata
  rwa [digitsToNat_natDigits, digitsToNat_natDigits] at this

theorem natToString_injective : Function.Injective (fun n : Nat => toString n) := by
  intro m n h
  exact natRepr_injective h

theorem secondsPerUnit_isSome_iff (u : Char) :
    (secondsPerUnit u).isSome = true ↔ (u = 's' ∨ u = 'm' ∨ u = 'h' ∨ u = 'd') := by
  constructor
  · intro h
    unfold secondsPerUnit at h
    split at h <;> simp_all
  · rintro (h | h | h | h) <;> subst h <;> rfl

theorem parseIntervalSeconds_isOk_iff (s : String) :
    (parseIntervalSeconds s).isOk = true ↔ matchesIntervalPattern s := by
  constructor
  · intro h
    unfold parseIntervalSeconds at h
    cases hlast : s.data.getLast? with
    | none => rw [hlast] at h; simp [Except.isOk, Except.toBool] at h
    | some unit =>
      rw [hlast] at h
      simp only at h
      split at h
      · rename_i hd
        cases hspu : secondsPerUnit unit with
        | none => rw [hspu] at h; simp [Except.isOk, Except.toBool] at h
        | some perUnit =>
          refine ⟨s.data.dropLast, unit, ?_, hd.1, by simpa using hd.2, ?_⟩
          · exact (List.dropLast_append_getLast? unit hlast).symm
          · exact (secondsPerUnit_isSome_iff unit).mp (by rw [hspu]; rfl)
      · simp [Except.isOk, Except.toBool] at h
  · rintro ⟨ds, unit, hdata, hne, hdig, hunit⟩
    have hlast : s.data.getLast? = some unit := by
      rw [hdata]; exact List.getLast?_concat ds
    have hdrop : s.data.dropLast = ds := by
      rw [hdata]; exact List.dropLast_concat
    obtain ⟨perUnit, hspu⟩ :=
      Option.isSome_iff_exists.mp ((secondsPerUnit_isSome_iff unit).mpr hunit)
    unfold parseIntervalSeconds
    rw [hlast]
    simp only [hdrop]
    rw [if_pos ⟨hne, by simpa using hdig⟩, hspu]
    rfl

/-- Claim C10: interval validation is purely syntactic — the parser (and the
identical inlined check in `calculateEpoch`) rejects exactly the strings not
matching one-or-more digits followed by a unit in s, m, h, d; the zero-amount
string "0s" is accepted, and `calculateEpoch` on it divides by zero and returns
the string "NaN" instead of an aligned epoch. -/
theorem interval_validation_syntactic :
    (∀ s, (parseIntervalSeconds s).isOk = true ↔ matchesIntervalPattern s)
    ∧ parseIntervalSeconds "0s" = .ok 0
    ∧ (∀ t, calculateEpoch "0s" t = .ok "NaN") := by
  refine ⟨parseIntervalSeconds_isOk_iff, by rfl, ?_⟩
  intro t
  show Except.map _ (parseIntervalSeconds "0s") = _
  rw [show parseIntervalSeconds "0s" = .ok 0 from rfl]
  rfl

theorem interval_validation_syntactic_witness :
    ((parseIntervalSeconds "5m").isOk = true ↔ matchesIntervalPattern "5m")
    ∧ calculateEpoch "0s" 1700000000 = .ok "NaN" :=
  ⟨interval_validation_syntactic.1 "5m", interval_validation_syntactic.2.2 1700000000⟩

/-- Claim C7: for every valid interval string (with positive parsed seconds),
`calculateEpoch` returns the decimal string of `intervalSeconds * (now / intervalSeconds)`
— the floor-aligned epoch relative to absolute Unix time, so independent peers
agree — hence two times in the same aligned epoch give identical results and
times in adjacent epochs give different results. -/
theorem calculateEpoch_alignment :
    ∀ interval I t u, parseIntervalSeconds interval = .ok I → 0 < I →
      calculateEpoch interval t = .ok (toString (I * (t / I)))
      ∧ (t / I = u / I → calculateEpoch interval t = calculateEpoch interval u)
      ∧ (u / I = t / I + 1 → calculateEpoch interval t ≠ calculateEpoch interval u) := by
  intro interval I t u hparse hI
  have hne : I ≠ 0 := by omega
  have formula : ∀ v : Nat, calculateEpoch interval v = .ok (toString (I * (v / I))) := by
    intro v
    have hsub : v - v % I = I * (v / I) := by
      have := Nat.div_add_mod v I
      omega
    calc calculateEpoch interval v
        = Except.ok (jsNumToString (jsSub v (jsMod v I))) := by
          show Except.map _ (parseIntervalSeconds interval) = _
          rw [hparse]
          rfl
      _ = Except.ok (toString (v - v % I)) := by
          rw [show jsMod v I = some (v % I) by simp [jsMod, hne]]
          rfl
      _ = Except.ok (toString (I * (v / I))) := by rw [hsub]
  refine ⟨formula t, ?_, ?_⟩
  · intro hsame
    rw [formula t, formula u, hsame]
  · intro hadj heq
    rw [formula t, formula u] at heq
    have hstr : toString (I * (t / I)) = toString (I * (u / I)) := by
      injection heq
    have hval : I * (t / I) = I * (u / I) := natToString_injective hstr
    have hlt : I * (t / I) < I * (u / I) := by
      rw [hadj]
      exact Nat.mul_lt_mul_of_pos_left (by omega) hI
    exact absurd hval (Nat.ne_of_lt hlt)

theorem calculateEpoch_alignment_witness :
    calculateEpoch "5m" 301 = .ok "300"
    ∧ calculateEpoch "5m" 301 = calculateEpoch "5m" 599
    ∧ calculateEpoch "5m" 301 ≠ calculateEpoch "5m" 601 := by
  have h := calculateEpoch_alignment "5m" 300 301 601 (by rfl) (by decide)
  have h2 := calculateEpoch_alignment "5m" 300 301 599 (by rfl) (by decide)
  exact ⟨by rw [h.1]; rfl, h2.2.1 (by decide), h.2.2 (by decide)⟩

/-- Claim C8: `isClose` returns true exactly when some retained sketch is still
valid or expired less than the grace period ago; for a peer whose only sketch
expired `t` ms ago (`t ≥ 0`), the result is true exactly when `t` is less than
the grace period, switching at the boundary. -/
theorem isClose_grace_window :
    (∀ now sketches g, isClose now sketches g = true ↔
      ∃ s ∈ sketches, now < s.expiresAt ∨ now - s.expiresAt < g)
    ∧ (∀ now g (s : TrackedSketch), s.expiresAt ≤ now →
      (isClose now [s] g = true ↔ now - s.expiresAt < g)) := by
  constructor
  · intro now sketches g
    simp [isClose, List.any_eq_true, sketchIsValid]
  · intro now g s hexp
    simp only [isClose, List.any_cons, List.any_nil, Bool.or_false, sketchIsValid,
      Bool.or_eq_true, decide_eq_true_eq]
    omega

theorem isClose_grace_window_witness :
    (isClose 160 [⟨"a", 100⟩] 61 = true ↔ (160 : Int) - 100 < 61)
    ∧ (isClose 160 [⟨"a", 100⟩] 60 = true ↔ (160 : Int) - 100 < 60) :=
  ⟨isClose_grace_window.2 160 61 ⟨"a", 100⟩ (by decide),
   isClose_grace_window.2 160 60 ⟨"a", 100⟩ (by decide)⟩

theorem minHash_foldl_length :
    ∀ (items : List String) (salt : String) (sig : List Nat),
      (items.foldl
        (fun signature item =>
          signature.mapIdx fun j v =>
            let h := sha256biguint64 [item, salt, toString j]
            if h < v then h else v)
        sig).length = sig.length := by
  intro items salt
  induction items with
  | nil => intro sig; rfl
  | cons item rest ih =>
    intro sig
    simp only [List.foldl_cons]
    rw [ih]
    exact List.length_mapIdx

theorem minHash_getD_foldl :
    ∀ (items : List String) (salt : String) (sig : List Nat) (i : Nat), i < sig.length →
      (items.foldl
        (fun signature item =>
          signature.mapIdx fun j v =>
            let h := sha256biguint64 [item, salt, toString j]
            if h < v then h else v)
        sig).getD i 0
      = items.foldl
          (fun m item =>
            let h := sha256biguint64 [item, salt, toString i]
            if h < m then h else m)
          (sig.getD i 0) := by
  intro items salt
  induction items with
  | nil => intro sig i hi; rfl
  | cons item rest ih =>
    intro sig i hi
    simp only [List.foldl_cons]
    have hlen : (sig.mapIdx fun j v =>
        let h := sha256biguint64 [item, salt, toString j]
        if h < v then h else v).length = sig.length := List.length_mapIdx
    have hmi : i < (sig.mapIdx fun j v =>
        let h := sha256biguint64 [item, salt, toString j]
        if h < v then h else v).length := by rw [hlen]; exact hi
    have hstep : (sig.mapIdx fun j v =>
        let h := sha256biguint64 [item, salt, toString j]
        if h < v then h else v).getD i 0
        = (let h := sha256biguint64 [item, salt, toString i]
           if h < sig.getD i 0 then h else sig.getD i 0) := by
      rw [List.getD_eq_getElem _ 0 hmi, List.getD_eq_getElem sig 0 hi,
        List.getElem_mapIdx]
    rw [ih _ i hmi, hstep]

/-- Claim C4 (code bug): `minHash` returns exactly `k` slots and folds each slot
down with the per-item keyed hash as the claim states, but the slots are
initialized to the literal `0xffff_fffff_ffff_ffffn` — seventeen hex digits,
`2^68 - 1` — not the maximum representable uint64 `2^64 - 1`; for empty items
every slot of the returned signature is therefore `2^68 - 1`. -/
theorem minHash_init_divergence :
    (∀ items k salt, (minHash items k salt).length = k)
    ∧ (∀ items k salt (i : Fin k),
        (minHash items k salt).getD i 0
          = items.foldl
              (fun m item =>
                let h := sha256biguint64 [item, salt, toString i.val]
                if h < m then h else m)
              minHashInit)
    ∧ minHash [] 4 "wifi:0" = List.replicate 4 0xfffffffffffffffff
    ∧ minHashInit = 2 ^ 68 - 1
    ∧ minHashInit ≠ 2 ^ 64 - 1 := by
  refine ⟨?_, ?_, rfl, by decide, by decide⟩
  · intro items k salt
    unfold minHash
    rw [minHash_foldl_length]
    exact List.length_replicate k minHashInit
  · intro items k salt i
    unfold minHash
    rw [minHash_getD_foldl items salt _ i.val (by simp [i.isLt])]
    congr 1
    rw [List.getD_eq_getElem _ _ (by simp [i.isLt])]
    simp

theorem lshTags_foldl_build (pub pre : Nat → String) :
    ∀ (l : List Nat) (init : Tags),
      l.foldl (fun tags i => ⟨tags.publicTags ++ [pub i], tags.preImages ++ [pre i]⟩) init
        = ⟨init.publicTags ++ l.map pub, init.preImages ++ l.map pre⟩ := by
  intro l
  induction l with
  | nil => intro init; simp
  | cons x xs ih =>
    intro init
    simp only [List.foldl_cons, List.map_cons]
    rw [ih]
    simp

/-- Claim C6 counterexample: with the empty signature and zero bands the length
(0) is divisible by bands (0), yet `lshTags` throws the ConfigError — in the
source `rows` is `0 / 0 = NaN`, which is not an integer. -/
theorem lshTags_zero_bands_cex :
    lshTags [] 0 "x" = .error "signature.length must be divisible by bands"
    ∧ (0 : Nat) ∣ 0 :=
  ⟨rfl, ⟨0, rfl⟩⟩

/-- Claim C6 (amended): `lshTags` fails with the ConfigError exactly when bands
is zero or does not divide the signature length; for every nonzero bands
dividing the length it returns public-tag and pre-image sequences of length
exactly bands, where pre-image i hashes (salt, i, the i-th contiguous
rows-slice as decimal strings) and public tag i hashes the pre-image. -/
theorem lshTags_divisibility :
    ∀ (sig : List Nat) (bands : Nat) (salt : String),
      ((lshTags sig bands salt).isOk = true ↔ bands ≠ 0 ∧ bands ∣ sig.length)
      ∧ (bands ≠ 0 → bands ∣ sig.length →
          ∃ tags, lshTags sig bands salt = .ok tags
            ∧ tags.publicTags.length = bands
            ∧ tags.preImages.length = bands
            ∧ (∀ i : Fin bands,
                tags.preImages.getD i ""
                  = sha256base64url (salt :: toString i.val ::
                      ((sig.drop (i.val * (sig.length / bands))).take (sig.length / bands)).map
                        (fun b => toString b))
                ∧ tags.publicTags.getD i ""
                  = sha256base64url [tags.preImages.getD i ""])) := by
  intro sig bands salt
  constructor
  · unfold lshTags
    split
    · rename_i hcond
      simp [Except.isOk, Except.toBool, hcond]
    · rename_i hcond
      simp [Except.isOk, Except.toBool, hcond]
  · intro hb hdvd
    have hcond : bands ≠ 0 ∧ bands ∣ sig.length := ⟨hb, hdvd⟩
    refine ⟨⟨(List.range bands).map
        (fun i => sha256base64url
          [sha256base64url (salt :: toString i ::
            ((sig.drop (i * (sig.length / bands))).take (sig.length / bands)).map
              (fun b => toString b))]),
      (List.range bands).map
        (fun i => sha256base64url (salt :: toString i ::
          ((sig.drop (i * (sig.length / bands))).take (sig.length / bands)).map
            (fun b => toString b)))⟩, ?_, by simp, by simp, ?_⟩
    · unfold lshTags
      rw [if_pos hcond]
      rw [lshTags_foldl_build
        (fun i => sha256base64url
          [sha256base64url (salt :: toString i ::
            ((sig.drop (i * (sig.length / bands))).take (sig.length / bands)).map
              (fun b => toString b))])
        (fun i => sha256base64url (salt :: toString i ::
          ((sig.drop (i * (sig.length / bands))).take (sig.length / bands)).map
            (fun b => toString b)))
        (List.range bands) ⟨[], []⟩]
      simp
    · intro i
      have hi1 : i.val < ((List.range bands).map
          (fun i => sha256base64url (salt :: toString i ::
            ((sig.drop (i * (sig.length / bands))).take (sig.length / bands)).map
              (fun b => toString b)))).length := by simp [i.isLt]
      have hi2 : i.val < ((List.range bands).map
          (fun i => sha256base64url
            [sha256base64url (salt :: toString i ::
              ((sig.drop (i * (sig.length / bands))).take (sig.length / bands)).map
                (fun b => toString b))])).length := by simp [i.isLt]
      rw [List.getD_eq_getElem _ _ hi1, List.getD_eq_getElem _ _ hi2]
      simp [i.isLt]

theorem lshTags_divisibility_witness :
    ((lshTags [10, 20] 2 "m:0").isOk = true ↔ (2 : Nat) ≠ 0 ∧ 2 ∣ 2)
    ∧ (∃ tags, lshTags [10, 20] 2 "m:0" = .ok tags
        ∧ tags.publicTags.length = 2
        ∧ tags.preImages.length = 2
        ∧ (∀ i : Fin 2,
            tags.preImages.getD i ""
              = sha256base64url ("m:0" :: toString i.val ::
                  ((([10, 20] : List Nat).drop (i.val * (([10, 20] : List Nat).length / 2))).take
                    (([10, 20] : List Nat).length / 2)).map (fun b => toString b))
            ∧ tags.publicTags.getD i ""
              = sha256base64url [tags.preImages.getD i ""])) :=
  ⟨(lshTags_divisibility [10, 20] 2 "m:0").1,
   (lshTags_divisibility [10, 20] 2 "m:0").2 (by decide) (by decide)⟩

theorem toBytesBE_lt (numBytes n : Nat) : ∀ b ∈ toBytesBE numBytes n, b < 256 := by
  intro b hb
  simp only [toBytesBE, List.mem_map, List.mem_range] at hb
  obtain ⟨i, _, rfl⟩ := hb
  exact Nat.mod_lt _ (by omega)

theorem sha256_bytes_lt (msg : List Nat) : ∀ b ∈ sha256 msg, b < 256 := by
  intro b hb
  simp only [sha256, List.mem_flatMap] at hb
  obtain ⟨w, _, hbw⟩ := hb
  exact toBytesBE_lt 4 w b hbw

theorem beNat_lt_aux :
    ∀ (bytes : List Nat) (a : Nat), (∀ b ∈ bytes, b < 256) →
      bytes.foldl (fun a b => 256 * a + b) a < (a + 1) * 256 ^ bytes.length := by
  intro bytes
  induction bytes with
  | nil => intro a _; simp
  | cons b bs ih =>
    intro a hlt
    simp only [List.foldl_cons, List.length_cons]
    have hb : b < 256 := hlt b (List.mem_cons_self b bs)
    have h1 := ih (256 * a + b) (fun x hx => hlt x (List.mem_cons_of_mem b hx))
    have h2 : (256 * a + b + 1) * 256 ^ bs.length ≤ (a + 1) * 256 ^ (bs.length + 1) := by
      rw [pow_succ]
      have : 256 * a + b + 1 ≤ (a + 1) * 256 := by omega
      calc (256 * a + b + 1) * 256 ^ bs.length
          ≤ (a + 1) * 256 * 256 ^ bs.length := Nat.mul_le_mul_right _ this
        _ = (a + 1) * (256 ^ bs.length * 256) := by ring
    omega

theorem sha256biguint64_lt (args : List String) : sha256biguint64 args < 2 ^ 64 := by
  unfold sha256biguint64 beNat
  have hb : ∀ b ∈ (sha256 (utf8Encode (joinPipe args))).take 8, b < 256 := by
    intro b hb
    exact sha256_bytes_lt _ b (List.mem_of_mem_take hb)
  have h := beNat_lt_aux ((sha256 (utf8Encode (joinPipe args))).take 8) 0 hb
  have hlen : ((sha256 (utf8Encode (joinPipe args))).take 8).length ≤ 8 :=
    le_trans (List.length_take_le _ _) (le_refl 8)
  calc ((sha256 (utf8Encode (joinPipe args))).take 8).foldl (fun a b => 256 * a + b) 0
      < (0 + 1) * 256 ^ ((sha256 (utf8Encode (joinPipe args))).take 8).length := h
    _ ≤ 1 * 256 ^ 8 := by
        simp only [Nat.zero_add, Nat.one_mul]
        exact Nat.pow_le_pow_right (by omega) hlen
    _ = 2 ^ 64 := by norm_num

theorem joinPipe_injective :
    ∀ (args args' : List String), args ≠ [] → args' ≠ [] →
      (∀ s ∈ args, '|' ∉ s.data) → (∀ s ∈ args', '|' ∉ s.data) →
      joinPipe args = joinPipe args' → args = args' := by
  intro args args' h1 h2 hf1 hf2 heq
  have hdata : List.intercalate ['|'] (args.map String.data)
      = List.intercalate ['|'] (args'.map String.data) := congrArg String.data heq
  have hx1 : ∀ l ∈ args.map String.data, '|' ∉ l := by
    intro l hl
    obtain ⟨s, hs, rfl⟩ := List.mem_map.mp hl
    exact hf1 s hs
  have hx2 : ∀ l ∈ args'.map String.data, '|' ∉ l := by
    intro l hl
    obtain ⟨s, hs, rfl⟩ := List.mem_map.mp hl
    exact hf2 s hs
  have hs1 := List.splitOn_intercalate (args.map String.data) '|' hx1 (by simpa using h1)
  have hs2 := List.splitOn_intercalate (args'.map String.data) '|' hx2 (by simpa using h2)
  have hmap : args.map String.data = args'.map String.data := by
    rw [← hs1, ← hs2, hdata]
  exact List.map_injective_iff.mpr (fun a b hab => String.ext hab) hmap

/-- Claim C5 counterexample: the distinct part sequences ["a|b"] and
["a", "b"] join to the identical digest input "a|b", so `sha256biguint64`
receives the same bytes for both — the "|" separator is not unambiguous. -/
theorem keyed_hash_separator_cex :
    joinPipe ["a|b"] = joinPipe ["a", "b"]
    ∧ (["a|b"] : List String) ≠ ["a", "b"]
    ∧ sha256biguint64 ["a|b"] = sha256biguint64 ["a", "b"] := by
  have hj : joinPipe ["a|b"] = joinPipe ["a", "b"] := by decide
  exact ⟨hj, by decide,
    congrArg (fun s => beNat ((sha256 (utf8Encode s)).take 8)) hj⟩

/-- Claim C5 (amended): `sha256biguint64` joins its parts with the "|"
separator — which distinguishes distinct nonempty sequences of separator-free
parts, though not arbitrary sequences — computes the SHA-256 digest of the
UTF-8 bytes of the joined string, and the value of the first 8 digest bytes
read big-endian is an unsigned 64-bit integer; as a pure function of its
arguments it is deterministic. -/
theorem keyed_hash_separator :
    (∀ (args args' : List String), args ≠ [] → args' ≠ [] →
      (∀ s ∈ args, '|' ∉ s.data) → (∀ s ∈ args', '|' ∉ s.data) →
      args ≠ args' → joinPipe args ≠ joinPipe args')
    ∧ (∀ args, sha256biguint64 args < 2 ^ 64)
    ∧ (∀ args, sha256biguint64 args
        = beNat ((sha256 (utf8Encode (joinPipe args))).take 8)) := by
  refine ⟨?_, sha256biguint64_lt, fun args => rfl⟩
  intro args args' h1 h2 hf1 hf2 hne heq
  exact hne (joinPipe_injective args args' h1 h2 hf1 hf2 heq)

theorem keyed_hash_separator_witness :
    joinPipe ["a"] ≠ joinPipe ["b"] ∧ sha256biguint64 ["wifi"] < 2 ^ 64 :=
  ⟨keyed_hash_separator.1 ["a"] ["b"] (by decide) (by decide) (by decide) (by decide)
    (by decide),
   keyed_hash_separator.2.1 ["wifi"]⟩

theorem actAsClient_counts (env : ClientEnv) (items : List String) (now : Int) :
    countClose (actAsClient env items now).1 = 0
    ∧ countOpen (actAsClient env items now).1 = 0
    ∧ countEmit (actAsClient env items now).1 = 0 := by
  rcases env with ⟨w, r, n⟩
  cases w <;> cases r <;>
    simp [actAsClient, countClose, countOpen, countEmit,
      isCloseEff, isOpenEff, isEmitEff, List.countP_cons, List.countP_nil]

theorem actAsServer_counts (env : ServerEnv) :
    countClose (actAsServer env).1 = 0
    ∧ countOpen (actAsServer env).1 = 0
    ∧ countEmit (actAsServer env).1 = 0 := by
  rcases env with ⟨r, m, sk, w⟩
  cases r <;> cases sk <;> cases w <;>
    · simp only [actAsServer]
      try split
      all_goals
        simp [countClose, countOpen, countEmit,
          isCloseEff, isOpenEff, isEmitEff, List.countP_cons, List.countP_nil]

theorem initiateExec_counts (env : InitiateEnv) (items : List String) (now : Int) :
    countClose (initiateExec env items now).1 = 0
    ∧ countOpen (initiateExec env items now).1 = 0
    ∧ countEmit (initiateExec env items now).1 = 0 := by
  have hc := actAsClient_counts env.client items now
  have hs := actAsServer_counts env.server
  unfold initiateExec
  cases hcc : (actAsClient env.client items now).2 with
  | error e => simpa [hcc] using hc
  | ok r =>
    cases hss : (actAsServer env.server).2 with
    | error e =>
      simp only [hcc, hss, countClose, countOpen, countEmit, List.countP_append] at hc hs ⊢
      omega
    | ok m =>
      simp only [hcc, hss, countClose, countOpen, countEmit, List.countP_append] at hc hs ⊢
      omega

theorem incomingExec_counts (env : IncomingEnv) (now : Int) :
    countClose (incomingExec env now).1 = 0
    ∧ countOpen (incomingExec env now).1 = 0
    ∧ countEmit (incomingExec env now).1 = 0 := by
  have hs := actAsServer_counts env.server
  unfold incomingExec
  cases hss : (actAsServer env.server).2 with
  | error e => simpa [hss] using hs
  | ok m =>
    cases hsk : env.ourSketch with
    | none => simpa [hss] using hs
    | some items =>
      have hc := actAsClient_counts env.client items now
      simp only [hss, countClose, countOpen, countEmit, List.countP_append] at hc hs ⊢
      omega

theorem race_counts {α : Type} (exec : List Eff × Except PSIErr α) (t : Option Nat)
    (p : Eff → Bool) (h : exec.1.countP p = 0) : (race exec t).1.countP p = 0 := by
  cases t with
  | none => exact h
  | some n =>
    by_cases hlt : n < exec.1.length
    · have hsub := (List.take_sublist n exec.1).countP_le (p := p)
      have hr : (race exec (some n)).1 = exec.1.take n := by simp [race, hlt]
      rw [hr]
      omega
    · have hr : race exec (some n) = exec := by simp [race, hlt]
      rw [hr]
      exact h

theorem race_ok {α : Type} (exec : List Eff × Except PSIErr α) (t : Option Nat) (r : α)
    (h : (race exec t).2 = .ok r) : exec.2 = .ok r := by
  cases t with
  | none => exact h
  | some n =>
    by_cases hlt : n < exec.1.length
    · have hr : (race exec (some n)).2 = Except.error PSIErr.timeout := by simp [race, hlt]
      rw [hr] at h
      exact absurd h (by simp)
    · have hr : race exec (some n) = exec := by simp [race, hlt]
      rw [hr] at h
      exact h

theorem actAsClient_ok (env : ClientEnv) (items : List String) (now : Int) (r : PSIResult)
    (h : (actAsClient env items now).2 = .ok r) :
    env.writeErr = none ∧ env.readErr = none
    ∧ r = ⟨jsMul (jsDiv (env.intersectionSize : ℚ) (items.length : ℚ)) 100,
        env.intersectionSize, items.length, now⟩ := by
  rcases env with ⟨w, re, n⟩
  cases w <;> cases re <;> simp_all [actAsClient]

theorem actAsServer_ok (env : ServerEnv) (m : String)
    (h : (actAsServer env).2 = .ok m) :
    env.readErr = none ∧ env.writeErr = none
    ∧ ∃ its, env.sketchItems = some its ∧ its ≠ [] := by
  rcases env with ⟨re, mo, sk, w⟩
  cases re with
  | some e => simp [actAsServer] at h
  | none =>
    cases sk with
    | none => simp [actAsServer] at h
    | some its =>
      by_cases hits : its = []
      · simp [actAsServer, hits] at h
      · cases w with
        | some e => simp [actAsServer, hits] at h
        | none => exact ⟨rfl, rfl, its, rfl, hits⟩

theorem initiateExec_ok (env : InitiateEnv) (items : List String) (now : Int) (r : PSIResult)
    (h : (initiateExec env items now).2 = .ok r) :
    (actAsClient env.client items now).2 = .ok r
    ∧ ∃ m, (actAsServer env.server).2 = .ok m := by
  simp only [initiateExec] at h
  cases hcc : (actAsClient env.client items now).2 with
  | error e => simp [hcc] at h
  | ok r0 =>
    simp only [hcc] at h
    cases hss : (actAsServer env.server).2 with
    | error e => simp [hss] at h
    | ok m =>
      simp only [hss] at h
      simp only [Except.ok.injEq] at h
      subst h
      exact ⟨rfl, m, rfl⟩

theorem incomingExec_ok (env : IncomingEnv) (now : Int) (r : PSIResult)
    (h : (incomingExec env now).2 = .ok r) :
    (∃ m, (actAsServer env.server).2 = .ok m)
    ∧ ∃ items, env.ourSketch = some items ∧ (actAsClient env.client items now).2 = .ok r := by
  simp only [incomingExec] at h
  cases hss : (actAsServer env.server).2 with
  | error e => simp [hss] at h
  | ok m =>
    simp only [hss] at h
    cases hsk : env.ourSketch with
    | none => simp [hsk] at h
    | some items =>
      simp only [hsk] at h
      exact ⟨⟨m, rfl⟩, items, rfl, h⟩

/-- Claim C1 (code bug): with the per-peer ongoing marker already set, both
entry points fail fast with the already-ongoing error, performing no protocol
round and no marking — but each nevertheless performs an `unmarkOngoing` in its
cleanup, clearing the marker owned by the in-flight handshake, so across the
two invocations the marker is cleared twice (and once before the in-flight
handshake completes), not exactly once after it completes. -/
theorem psi_single_flight_marker :
    (∀ (op : Bool) (c : ClientEnv) (s : ServerEnv) (t : Option Nat)
        (items : List String) (now : Int),
      initiatePSI ⟨true, op, c, s, t⟩ items now
        = ([Eff.unmarkOngoing], .error PSIErr.alreadyOngoing))
    ∧ (∀ (s : ServerEnv) (sk : Option (List String)) (c : ClientEnv) (t : Option Nat)
        (now : Int),
      handleIncomingPSI ⟨true, s, sk, c, t⟩ now
        = ([Eff.closeStream, Eff.closeStream, Eff.unmarkOngoing],
            .error PSIErr.alreadyOngoing))
    ∧ countRound [Eff.unmarkOngoing] = 0
    ∧ countMark [Eff.unmarkOngoing] = 0
    ∧ countUnmark [Eff.unmarkOngoing] = 1
    ∧ countRound [Eff.closeStream, Eff.closeStream, Eff.unmarkOngoing] = 0
    ∧ countMark [Eff.closeStream, Eff.closeStream, Eff.unmarkOngoing] = 0
    ∧ countUnmark [Eff.closeStream, Eff.closeStream, Eff.unmarkOngoing] = 1 := by
  exact ⟨fun op c s t items now => rfl, fun s sk c t now => rfl,
    rfl, rfl, rfl, rfl, rfl, rfl⟩

/-- Claim C3 counterexample: on the incoming already-ongoing fast-fail path the
stream — already open, having been accepted from the remote peer — is closed
twice (once at the check, once in the cleanup), not exactly once. -/
theorem stream_close_twice_cex :
    countClose (handleIncomingPSI
      ⟨true, ⟨none, "m", some ["a"], none⟩, some ["a"], ⟨none, none, 0⟩, none⟩ 0).1 = 2
    ∧ (2 : Nat) ≠ 1 :=
  ⟨rfl, by decide⟩

/-- Claim C3 (amended): `initiatePSI` closes the stream exactly once on every
exit path on which it was opened and never touches it otherwise (opening
happens exactly on the non-fast-fail paths); `handleIncomingPSI` closes its
already-open stream exactly once on every exit path except the already-ongoing
fast-fail path, on which `close` is invoked twice. -/
theorem stream_close_discipline :
    ∀ (envI : InitiateEnv) (items : List String) (now : Int) (envH : IncomingEnv),
      countClose (initiatePSI envI items now).1
        = (if envI.ongoing || envI.openErr then 0 else 1)
      ∧ countOpen (initiatePSI envI items now).1
        = (if envI.ongoing || envI.openErr then 0 else 1)
      ∧ countClose (handleIncomingPSI envH now).1 = (if envH.ongoing then 2 else 1) := by
  intro envI items now envH
  refine ⟨?_, ?_, ?_⟩
  · cases hog : envI.ongoing with
    | true => simp [initiatePSI, hog, countClose, List.countP_cons, List.countP_nil, isCloseEff]
    | false =>
      cases hop : envI.openErr with
      | true => simp [initiatePSI, hog, hop, countClose, List.countP_cons, List.countP_nil, isCloseEff]
      | false =>
        have hr := race_counts (initiateExec envI items now) envI.timeoutAfter isCloseEff
          (initiateExec_counts envI items now).1
        unfold initiatePSI
        rw [hog, hop]
        simp only [Bool.false_eq_true, if_false]
        cases hrr : (race (initiateExec envI items now) envI.timeoutAfter).2 <;>
          simp_all [countClose, List.countP_append, List.countP_cons, List.countP_nil,
            isCloseEff]
  · cases hog : envI.ongoing with
    | true => simp [initiatePSI, hog, countOpen, List.countP_cons, List.countP_nil, isOpenEff]
    | false =>
      cases hop : envI.openErr with
      | true => simp [initiatePSI, hog, hop, countOpen, List.countP_cons, List.countP_nil, isOpenEff]
      | false =>
        have hr := race_counts (initiateExec envI items now) envI.timeoutAfter isOpenEff
          (initiateExec_counts envI items now).2.1
        unfold initiatePSI
        rw [hog, hop]
        simp only [Bool.false_eq_true, if_false]
        cases hrr : (race (initiateExec envI items now) envI.timeoutAfter).2 <;>
          simp_all [countOpen, List.countP_append, List.countP_cons, List.countP_nil,
            isOpenEff]
  · cases hog : envH.ongoing with
    | true => simp [handleIncomingPSI, hog, countClose, List.countP_cons, List.countP_nil, isCloseEff]
    | false =>
      have hr := race_counts (incomingExec envH now) envH.timeoutAfter isCloseEff
        (incomingExec_counts envH now).1
      unfold handleIncomingPSI
      rw [hog]
      simp only [Bool.false_eq_true, if_false]
      cases hrr : (race (incomingExec envH now) envH.timeoutAfter).2 <;>
        simp_all [countClose, List.countP_append, List.countP_cons, List.countP_nil,
          isCloseEff]

/-- Claim C2: the psi:complete event is dispatched exactly once when the run
succeeds and never on any failure, on both roles; and a run can only succeed
when every round operation succeeded — every round error (serialization,
missing sketch, transport, timeout) leaves the outcome an error, never a
fabricated zero-similarity result. -/
theorem psi_complete_emission :
    ∀ (envI : InitiateEnv) (items : List String) (now : Int) (envH : IncomingEnv),
      countEmit (initiatePSI envI items now).1
        = (if (initiatePSI envI items now).2.isOk then 1 else 0)
      ∧ countEmit (handleIncomingPSI envH now).1
        = (if (handleIncomingPSI envH now).2.isOk then 1 else 0)
      ∧ (∀ r, (initiatePSI envI items now).2 = .ok r →
          envI.ongoing = false ∧ envI.openErr = false
          ∧ envI.client.writeErr = none ∧ envI.client.readErr = none
          ∧ envI.server.readErr = none ∧ envI.server.writeErr = none
          ∧ ∃ its, envI.server.sketchItems = some its ∧ its ≠ [])
      ∧ (∀ r, (handleIncomingPSI envH now).2 = .ok r →
          envH.ongoing = false
          ∧ envH.server.readErr = none ∧ envH.server.writeErr = none
          ∧ (∃ its, envH.server.sketchItems = some its ∧ its ≠ [])
          ∧ (∃ its, envH.ourSketch = some its)
          ∧ envH.client.writeErr = none ∧ envH.client.readErr = none) := by
  intro envI items now envH
  refine ⟨?_, ?_, ?_, ?_⟩
  · cases hog : envI.ongoing with
    | true => simp [initiatePSI, hog, countEmit, List.countP_cons, List.countP_nil,
        isEmitEff, Except.isOk, Except.toBool]
    | false =>
      cases hop : envI.openErr with
      | true => simp [initiatePSI, hog, hop, countEmit, List.countP_cons, List.countP_nil,
          isEmitEff, Except.isOk, Except.toBool]
      | false =>
        have hr := race_counts (initiateExec envI items now) envI.timeoutAfter isEmitEff
          (initiateExec_counts envI items now).2.2
        unfold initiatePSI
        rw [hog, hop]
        simp only [Bool.false_eq_true, if_false]
        cases hrr : (race (initiateExec envI items now) envI.timeoutAfter).2 <;>
          simp_all [countEmit, List.countP_append, List.countP_cons, List.countP_nil,
            isEmitEff, Except.isOk, Except.toBool]
  · cases hog : envH.ongoing with
    | true => simp [handleIncomingPSI, hog, countEmit, List.countP_cons, List.countP_nil,
        isEmitEff, Except.isOk, Except.toBool]
    | false =>
      have hr := race_counts (incomingExec envH now) envH.timeoutAfter isEmitEff
        (incomingExec_counts envH now).2.2
      unfold handleIncomingPSI
      rw [hog]
      simp only [Bool.false_eq_true, if_false]
      cases hrr : (race (incomingExec envH now) envH.timeoutAfter).2 <;>
        simp_all [countEmit, List.countP_append, List.countP_cons, List.countP_nil,
          isEmitEff, Except.isOk, Except.toBool]
  · intro r hok
    have hog : envI.ongoing = false := by
      by_contra hch
      have : envI.ongoing = true := by
        cases h : envI.ongoing
        · exact absurd h hch
        · rfl
      rw [initiatePSI, this] at hok
      simp at hok
    have hop : envI.openErr = false := by
      by_contra hch
      have : envI.openErr = true := by
        cases h : envI.openErr
        · exact absurd h hch
        · rfl
      rw [initiatePSI, hog, this] at hok
      simp at hok
    have hout : (race (initiateExec envI items now) envI.timeoutAfter).2 = .ok r := by
      rw [initiatePSI, hog, hop] at hok
      simp only [Bool.false_eq_true, if_false] at hok
      cases hrr : (race (initiateExec envI items now) envI.timeoutAfter).2 with
      | ok r0 => rw [hrr] at hok; simp at hok; rw [hok]
      | error e => rw [hrr] at hok; simp at hok
    have hexec := race_ok _ _ _ hout
    obtain ⟨hcl, m, hsv⟩ := initiateExec_ok envI items now r hexec
    obtain ⟨hw, hre, _⟩ := actAsClient_ok envI.client items now r hcl
    obtain ⟨hsr, hsw, hsk⟩ := actAsServer_ok envI.server m hsv
    exact ⟨hog, hop, hw, hre, hsr, hsw, hsk⟩
  · intro r hok
    have hog : envH.ongoing = false := by
      by_contra hch
      have : envH.ongoing = true := by
        cases h : envH.ongoing
        · exact absurd h hch
        · rfl
      rw [handleIncomingPSI, this] at hok
      simp at hok
    have hout : (race (incomingExec envH now) envH.timeoutAfter).2 = .ok r := by
      rw [handleIncomingPSI, hog] at hok
      simp only [Bool.false_eq_true, if_false] at hok
      cases hrr : (race (incomingExec envH now) envH.timeoutAfter).2 with
      | ok r0 => rw [hrr] at hok; simp at hok; rw [hok]
      | error e => rw [hrr] at hok; simp at hok
    have hexec := race_ok _ _ _ hout
    obtain ⟨⟨m, hsv⟩, its, hsk, hcl⟩ := incomingExec_ok envH now r hexec
    obtain ⟨hw, hre, _⟩ := actAsClient_ok envH.client its now r hcl
    obtain ⟨hsr, hsw, hsks⟩ := actAsServer_ok envH.server m hsv
    exact ⟨hog, hsr, hsw, hsks, ⟨its, hsk⟩, hw, hre⟩

theorem psi_complete_emission_witness :
    ((initiatePSI ⟨false, false, ⟨none, none, 1⟩, ⟨none, "m", some ["x"], none⟩, none⟩
        ["a", "b"] 0).2.isOk = true)
    ∧ (⟨false, false, ⟨none, none, 1⟩, ⟨none, "m", some ["x"], none⟩, none⟩
        : InitiateEnv).client.writeErr = none := by
  have h := (psi_complete_emission
    ⟨false, false, ⟨none, none, 1⟩, ⟨none, "m", some ["x"], none⟩, none⟩ ["a", "b"] 0
    ⟨false, ⟨none, "m", some ["x"], none⟩, some ["x"], ⟨none, none, 1⟩, none⟩).2.2.1
    ⟨jsMul (jsDiv ((1 : Nat) : ℚ) (((["a", "b"] : List String).length : Nat) : ℚ)) 100,
      1, 2, 0⟩ rfl
  exact ⟨rfl, h.2.2.1⟩

theorem similarity_finite (size total : Nat) (h : 0 < total) :
    jsMul (jsDiv (size : ℚ) (total : ℚ)) 100
      = JSNumber.num ((size : ℚ) / (total : ℚ) * 100) := by
  have hq : ((total : Nat) : ℚ) ≠ 0 := by
    have : (0 : ℚ) < (total : ℚ) := by exact_mod_cast h
    exact ne_of_gt this
  simp [jsDiv, jsMul, hq]

theorem similarity_range_iff (size total : Nat) (h : 0 < total) :
    betweenZeroAndHundred (JSNumber.num ((size : ℚ) / (total : ℚ) * 100))
      ↔ size ≤ total := by
  have hq : (0 : ℚ) < (total : ℚ) := by exact_mod_cast h
  simp only [betweenZeroAndHundred]
  constructor
  · rintro ⟨-, h2⟩
    have h3 : (size : ℚ) / (total : ℚ) ≤ 1 := by nlinarith
    rw [div_le_one hq] at h3
    exact_mod_cast h3
  · intro hle
    have h1 : (size : ℚ) / (total : ℚ) ≤ 1 := by
      rw [div_le_one hq]
      exact_mod_cast hle
    refine ⟨by positivity, ?_⟩
    calc (size : ℚ) / (total : ℚ) * 100 ≤ 1 * 100 :=
      mul_le_mul_of_nonneg_right h1 (by norm_num)
    _ = 100 := by norm_num

theorem similarity_empty (size : Nat) :
    ¬ betweenZeroAndHundred (jsMul (jsDiv (size : ℚ) ((0 : Nat) : ℚ)) 100) := by
  rcases Nat.eq_zero_or_pos size with h0 | hpos
  · subst h0
    simp [jsDiv, jsMul, betweenZeroAndHundred]
  · have hq : ((size : Nat) : ℚ) ≠ 0 := by
      have : (0 : ℚ) < (size : ℚ) := by exact_mod_cast hpos
      exact ne_of_gt this
    simp [jsDiv, jsMul, betweenZeroAndHundred, hq]

/-- Claim C9 counterexample: a fully successful initiate handshake in which the
external PSI primitive reports intersection size 2 against a single local item
produces a PSIResult whose similarity is 200, above 100; and a fully successful
handshake with an empty local item list produces a similarity of NaN (the
source divides by `ourItems.length = 0`) — the similarity field is not always
a float between 0 and 100. -/
theorem psi_similarity_range_cex :
    ((initiatePSI ⟨false, false, ⟨none, none, 2⟩, ⟨none, "m", some ["x"], none⟩, none⟩
        ["a"] 0).2
      = .ok ⟨JSNumber.num 200, 2, 1, 0⟩)
    ∧ (100 : ℚ) < 200
    ∧ ((initiatePSI ⟨false, false, ⟨none, none, 0⟩, ⟨none, "m", some ["x"], none⟩, none⟩
        [] 0).2
      = .ok ⟨JSNumber.nan, 0, 0, 0⟩) := by
  refine ⟨?_, by norm_num, ?_⟩
  · norm_num [initiatePSI, race, initiateExec, actAsClient, actAsServer, jsDiv, jsMul]
  · norm_num [initiatePSI, race, initiateExec, actAsClient, actAsServer, jsDiv, jsMul]

/-- Claim C9 (amended): every PSIResult of a successful handshake (either role)
has totalItems equal to the local side's own item count and similarity equal to
intersectionSize / totalItems * 100 computed with JavaScript number semantics.
When the local item count is positive the similarity is the finite value
size/total*100, and it lies between 0 and 100 exactly when the reported
intersection size is at most the item count (the code has no clamp, so a larger
reported size yields a value above 100); when the local item list is empty the
similarity is NaN (Infinity for a positive reported size), not a number between
0 and 100. -/
theorem psi_similarity_formula :
    ∀ (envI : InitiateEnv) (items : List String) (now : Int) (envH : IncomingEnv),
      (∀ r, (initiatePSI envI items now).2 = .ok r →
        r.totalItems = items.length
        ∧ r.intersectionSize = envI.client.intersectionSize
        ∧ r.similarity = jsMul (jsDiv (r.intersectionSize : ℚ) (r.totalItems : ℚ)) 100
        ∧ (0 < r.totalItems →
            r.similarity
              = JSNumber.num ((r.intersectionSize : ℚ) / (r.totalItems : ℚ) * 100)
            ∧ (betweenZeroAndHundred r.similarity ↔ r.intersectionSize ≤ r.totalItems))
        ∧ (r.totalItems = 0 → ¬ betweenZeroAndHundred r.similarity))
      ∧ (∀ r, (handleIncomingPSI envH now).2 = .ok r →
        (∃ its, envH.ourSketch = some its ∧ r.totalItems = its.length)
        ∧ r.intersectionSize = envH.client.intersectionSize
        ∧ r.similarity = jsMul (jsDiv (r.intersectionSize : ℚ) (r.totalItems : ℚ)) 100
        ∧ (0 < r.totalItems →
            r.similarity
              = JSNumber.num ((r.intersectionSize : ℚ) / (r.totalItems : ℚ) * 100)
            ∧ (betweenZeroAndHundred r.similarity ↔ r.intersectionSize ≤ r.totalItems))
        ∧ (r.totalItems = 0 → ¬ betweenZeroAndHundred r.similarity)) := by
  intro envI items now envH
  constructor
  · intro r hok
    have hog : envI.ongoing = false := by
      cases h : envI.ongoing
      · rfl
      · rw [initiatePSI, h] at hok; simp at hok
    have hop : envI.openErr = false := by
      cases h : envI.openErr
      · rfl
      · rw [initiatePSI, hog, h] at hok; simp at hok
    have hout : (race (initiateExec envI items now) envI.timeoutAfter).2 = .ok r := by
      rw [initiatePSI, hog, hop] at hok
      simp only [Bool.false_eq_true, if_false] at hok
      cases hrr : (race (initiateExec envI items now) envI.timeoutAfter).2 with
      | ok r0 => rw [hrr] at hok; simp at hok; rw [hok]
      | error e => rw [hrr] at hok; simp at hok
    obtain ⟨hcl, _, _⟩ := initiateExec_ok envI items now r (race_ok _ _ _ hout)
    obtain ⟨_, _, hr⟩ := actAsClient_ok envI.client items now r hcl
    subst hr
    refine ⟨rfl, rfl, rfl, fun hpos => ?_, fun h0 => ?_⟩
    · have hfin := similarity_finite envI.client.intersectionSize items.length hpos
      refine ⟨hfin, ?_⟩
      rw [show (⟨jsMul (jsDiv (envI.client.intersectionSize : ℚ) (items.length : ℚ)) 100,
        envI.client.intersectionSize, items.length, now⟩ : PSIResult).similarity
        = jsMul (jsDiv (envI.client.intersectionSize : ℚ) (items.length : ℚ)) 100 from rfl,
        hfin]
      exact similarity_range_iff envI.client.intersectionSize items.length hpos
    · have hlen : items.length = 0 := h0
      rw [show (⟨jsMul (jsDiv (envI.client.intersectionSize : ℚ) (items.length : ℚ)) 100,
        envI.client.intersectionSize, items.length, now⟩ : PSIResult).similarity
        = jsMul (jsDiv (envI.client.intersectionSize : ℚ) (items.length : ℚ)) 100 from rfl,
        hlen]
      exact similarity_empty envI.client.intersectionSize
  · intro r hok
    have hog : envH.ongoing = false := by
      cases h : envH.ongoing
      · rfl
      · rw [handleIncomingPSI, h] at hok; simp at hok
    have hout : (race (incomingExec envH now) envH.timeoutAfter).2 = .ok r := by
      rw [handleIncomingPSI, hog] at hok
      simp only [Bool.false_eq_true, if_false] at hok
      cases hrr : (race (incomingExec envH now) envH.timeoutAfter).2 with
      | ok r0 => rw [hrr] at hok; simp at hok; rw [hok]
      | error e => rw [hrr] at hok; simp at hok
    obtain ⟨_, its, hsk, hcl⟩ := incomingExec_ok envH now r (race_ok _ _ _ hout)
    obtain ⟨_, _, hr⟩ := actAsClient_ok envH.client its now r hcl
    subst hr
    refine ⟨⟨its, hsk, rfl⟩, rfl, rfl, fun hpos => ?_, fun h0 => ?_⟩
    · have hfin := similarity_finite envH.client.intersectionSize its.length hpos
      refine ⟨hfin, ?_⟩
      rw [show (⟨jsMul (jsDiv (envH.client.intersectionSize : ℚ) (its.length : ℚ)) 100,
        envH.client.intersectionSize, its.length, now⟩ : PSIResult).similarity
        = jsMul (jsDiv (envH.client.intersectionSize : ℚ) (its.length : ℚ)) 100 from rfl,
        hfin]
      exact similarity_range_iff envH.client.intersectionSize its.length hpos
    · have hlen : its.length = 0 := h0
      rw [show (⟨jsMul (jsDiv (envH.client.intersectionSize : ℚ) (its.length : ℚ)) 100,
        envH.client.intersectionSize, its.length, now⟩ : PSIResult).similarity
        = jsMul (jsDiv (envH.client.intersectionSize : ℚ) (its.length : ℚ)) 100 from rfl,
        hlen]
      exact similarity_empty envH.client.intersectionSize

theorem psi_similarity_formula_witness :
    ((⟨jsMul (jsDiv ((1 : Nat) : ℚ) (((["a", "b"] : List String).length : Nat) : ℚ)) 100,
        1, 2, 0⟩ : PSIResult).totalItems
      = (["a", "b"] : List String).length)
    ∧ ((⟨jsMul (jsDiv ((1 : Nat) : ℚ) (((["a", "b"] : List String).length : Nat) : ℚ)) 100,
        1, 2, 0⟩ : PSIResult).similarity
      = JSNumber.num (((1 : Nat) : ℚ) / ((2 : Nat) : ℚ) * 100)) := by
  have h := (psi_similarity_formula
    ⟨false, false, ⟨none, none, 1⟩, ⟨none, "m", some ["x"], none⟩, none⟩ ["a", "b"] 0
    ⟨false, ⟨none, "m", some ["x"], none⟩, some ["x"], ⟨none, none, 1⟩, none⟩).1
    ⟨jsMul (jsDiv ((1 : Nat) : ℚ) (((["a", "b"] : List String).length : Nat) : ℚ)) 100,
      1, 2, 0⟩ rfl
  exact ⟨h.1, (h.2.2.2.1 (by norm_num)).1⟩

end Shimmer
